import Mathlib

/-!
Verification of the anchor-generation / matching / target-encoding /
sampling pipeline of `dataset.py` (class `ToothImageDataset`).

Modelling conventions:
* Machine floats are modelled as exact rationals `ℚ`; the decimal
  constants of the source (`0.3`, `0.5`, …) become the corresponding
  rationals.
* Values that can be non-finite in the source (results of float
  division and `np.log`) are modelled by `FVal`, a rational extended
  with `+inf`, `-inf` and `NaN`, mirroring IEEE-754 behaviour of the
  operations actually used.
* `np.log` on a positive (finite) argument returns some finite float;
  the theorems below never depend on its numeric value, so the
  definitions take the positive-argument branch of the logarithm as an
  arbitrary function parameter `L : ℚ → ℚ`.
* Numpy tensors indexed `[W, H, num_shapes]` are modelled flattened, as
  lists in row-major order; aligned elementwise tensor operations
  become `List.zip` / `List.map`.
* `np.random.permutation` is modelled by an arbitrary function
  parameter together with the hypothesis that, on the list it is
  actually applied to, it returns a permutation of that list.
-/

namespace Dataset

/-- A box `(x_min, y_min, x_max, y_max)`, the 4-component rows of the
anchor and ground-truth arrays of the source. -/
structure Box where
  xmin : ℚ
  ymin : ℚ
  xmax : ℚ
  ymax : ℚ
deriving DecidableEq, Repr

/-- Default box used to make list indexing total; never reached in the
in-bounds situations the theorems quantify over. -/
def box0 : Box := ⟨0, 0, 0, 0⟩

/-- A float value: finite rational, one of the two infinities, or NaN. -/
inductive FVal where
  | finite (q : ℚ)
  | posInf
  | negInf
  | nan
deriving DecidableEq, Repr

/-- Whether a float value is finite (neither NaN nor an infinity). -/
def FVal.isFinite : FVal → Bool
  | .finite _ => true
  | _ => false

/-- IEEE float division of two finite values: `0/0` is NaN, `p/0` for
`p ≠ 0` is a signed infinity, otherwise the exact quotient. -/
def fdiv (p q : ℚ) : FVal :=
  if q = 0 then
    if p = 0 then .nan else if p > 0 then .posInf else .negInf
  else .finite (p / q)

/-- `np.log` on a float value: `log` of a positive finite argument is
the finite value `L q` (the numeric log model `L` is irrelevant to all
statements below), `log 0 = -inf`, `log` of a negative number is NaN,
`log (+inf) = +inf`, and `log` of `-inf` or NaN is NaN. -/
def flog (L : ℚ → ℚ) : FVal → FVal
  | .finite q => if 0 < q then .finite (L q) else if q = 0 then .negInf else .nan
  | .posInf => .posInf
  | .negInf => .nan
  | .nan => .nan

/-- Largest finite `float32` value, `(2^24 - 1) * 2^104` =
3.4028235e38; `np.nan_to_num` substitutes it for `+inf` on the
`float32` array `reg`. -/
def FLOAT32_MAX : ℚ := (2 ^ 24 - 1) * 2 ^ 104

/-- `np.nan_to_num` with default arguments on a `float32` array entry:
NaN becomes `0`, `+inf` becomes the largest finite float32, `-inf`
becomes its negation, finite values pass through. -/
def nanToNum : FVal → FVal
  | .finite q => .finite q
  | .nan => .finite 0
  | .posInf => .finite FLOAT32_MAX
  | .negInf => .finite (-FLOAT32_MAX)

/-- Modelled from the spec: the `IoU` helper lives in `utils.py`, which
is not part of the provided sources; §4.1 of the spec defines it as
intersection area over union area, with the intersection width and
height clamped to `≥ 0`, and exactly `0` when either box has zero area
or the boxes do not overlap (so in particular no division by zero). -/
def IoU (a b : Box) : ℚ :=
  let iw := max 0 (min a.xmax b.xmax - max a.xmin b.xmin)
  let ih := max 0 (min a.ymax b.ymax - max a.ymin b.ymin)
  let inter := iw * ih
  let areaA := (a.xmax - a.xmin) * (a.ymax - a.ymin)
  let areaB := (b.xmax - b.xmin) * (b.ymax - b.ymin)
  if areaA = 0 ∨ areaB = 0 then 0
  else if areaA + areaB - inter = 0 then 0
  else inter / (areaA + areaB - inter)

/-- Maximum of a list of rationals (`np.amax` along the ground-truth
axis); `0` for the empty list, which the source never reaches. -/
def listMax : List ℚ → ℚ
  | [] => 0
  | [x] => x
  | x :: y :: ys => max x (listMax (y :: ys))

/-- Index of the first occurrence of the maximum (`np.argmax` along the
ground-truth axis, first-max tie-break); `0` for the empty list, which
the source never reaches. -/
def argmaxIdx : List ℚ → ℕ
  | [] => 0
  | [_] => 0
  | x :: y :: ys => if x < listMax (y :: ys) then argmaxIdx (y :: ys) + 1 else 0

/-- Boolean-mask indexing `indices[mask]` of numpy: the elements of
`indices` at the positions where `mask` is true, in order. -/
def maskSelect (indices : List ℕ) (mask : List Bool) : List ℕ :=
  ((indices.zip mask).filter (fun p => p.2)).map (fun p => p.1)

/-! ### Configuration constants of `ToothImageDataset` -/

def INPUT_SIZE : ℚ × ℚ := (1600, 800)

def OUTPUT_SIZE : ℕ × ℕ := (50, 25)

def OUTPUT_CELL_SIZE : ℚ := INPUT_SIZE.1 / (OUTPUT_SIZE.1 : ℚ)

def RECEPTIVE_FIELD : ℚ := 212

def ANCHORS_WIDTH_RATIOS : List ℚ := [3/10, 1/2, 1]

def ANCHORS_HEIGHT_RATIOS : List ℚ := [3/10, 1/2, 1]

def NUMBER_ANCHORS_WIDE : ℕ := OUTPUT_SIZE.1

def NUMBER_ANCHORS_HEIGHT : ℕ := OUTPUT_SIZE.2

def NEGATIVE_THRESHOLD : ℚ := 3/10

def POSITIVE_THRESHOLD : ℚ := 1/2

def ANCHOR_SAMPLING_SIZE : ℕ := 256

/-! ### Anchor grid generator -/

/-- `get_anchor_dimensions`: nested loops, outer over the width ratios,
inner over the height ratios, appending `(w, h)` pairs. -/
def get_anchor_dimensions : List (ℚ × ℚ) :=
  ANCHORS_WIDTH_RATIOS.flatMap (fun w => ANCHORS_HEIGHT_RATIOS.map (fun h => (w, h)))

/-- `self.anchor_number = len(self.anchor_dimensions)`. -/
def anchor_number : ℕ := get_anchor_dimensions.length

/-- `get_anchors_at_position`: the anchors of the grid cell `pos`, one
per shape, each `(top_x, top_y, top_x + width, top_y + height)` around
the cell center `OUTPUT_CELL_SIZE * (pos + 0.5)` (the same cell size on
both axes). -/
def get_anchors_at_position (pos : ℕ × ℕ) : List Box :=
  get_anchor_dimensions.map (fun d =>
    let center_x := OUTPUT_CELL_SIZE * ((pos.1 : ℚ) + 1/2)
    let center_y := OUTPUT_CELL_SIZE * ((pos.2 : ℚ) + 1/2)
    let width := d.1 * RECEPTIVE_FIELD
    let height := d.2 * RECEPTIVE_FIELD
    let top_x := center_x - width / 2
    let top_y := center_y - height / 2
    ⟨top_x, top_y, top_x + width, top_y + height⟩)

/-- `get_image_anchors`: the full `[W][H][shape]` anchor grid. -/
def get_image_anchors : List (List (List Box)) :=
  (List.range NUMBER_ANCHORS_WIDE).map (fun i =>
    (List.range NUMBER_ANCHORS_HEIGHT).map (fun j =>
      get_anchors_at_position (i, j)))

/-- The anchor grid flattened to a single list of boxes, in the
row-major order of `anchors.reshape((-1, 4))`. -/
def image_anchors_flat : List Box := get_image_anchors.flatten.flatten

/-! ### Ground-truth matcher -/

/-- The IoU row of one anchor against every ground-truth box
(`ious[i, j, n, :]`). -/
def iouRow (bboxes : List Box) (a : Box) : List ℚ := bboxes.map (IoU a)

/-- `get_positive_negative_anchors` over the flattened anchor list:
returns `(truth_bbox, positives, negatives)`.  With no ground-truth
boxes the IoU tensor is all zeros and the truth tensor is empty;
otherwise each anchor gets the ground-truth box at the `argmax` of its
IoU row, and the positive / negative labels threshold the row maximum
strictly. -/
def get_positive_negative_anchors (anchors bboxes : List Box) :
    List Box × List Bool × List Bool :=
  if bboxes = [] then
    (([] : List Box),
     anchors.map (fun _ => decide ((0 : ℚ) > POSITIVE_THRESHOLD)),
     anchors.map (fun _ => decide ((0 : ℚ) < NEGATIVE_THRESHOLD)))
  else
    let ious := anchors.map (iouRow bboxes)
    let truth := ious.map (fun r => bboxes.getD (argmaxIdx r) box0)
    let maxIous := ious.map listMax
    (truth,
     maxIous.map (fun m => decide (m > POSITIVE_THRESHOLD)),
     maxIous.map (fun m => decide (m < NEGATIVE_THRESHOLD)))

/-- The internal `max_iou_per_anchor` value of anchor `k`. -/
def maxIouAt (anchors bboxes : List Box) (k : ℕ) : ℚ :=
  listMax (iouRow bboxes (anchors.getD k box0))

/-! ### Target parametrizer -/

/-- The four regression components of one (anchor, matched-box) pair,
before `np.nan_to_num`:
`dx = (b.xmin - a.xmin) / (a.xmax - a.xmin)`,
`dy = (b.ymin - a.ymin) / (a.ymax - a.ymin)`,
`dw = log ((b.xmax - b.xmin) / (a.xmax - a.xmin))`,
`dh = log ((b.ymax - b.ymin) / (a.ymax - a.ymin))`. -/
def parametrizePair (L : ℚ → ℚ) (a b : Box) : FVal × FVal × FVal × FVal :=
  (fdiv (b.xmin - a.xmin) (a.xmax - a.xmin),
   fdiv (b.ymin - a.ymin) (a.ymax - a.ymin),
   flog L (fdiv (b.xmax - b.xmin) (a.xmax - a.xmin)),
   flog L (fdiv (b.ymax - b.ymin) (a.ymax - a.ymin)))

/-- Zero regression row (`np.zeros(anchors.shape)` per anchor). -/
def zeroReg : FVal × FVal × FVal × FVal :=
  (.finite 0, .finite 0, .finite 0, .finite 0)

/-- `parametrize`: all-zero tensor of the anchors' shape when there are
no matched boxes (early return, no formula evaluated); otherwise the
elementwise regression components pushed through `np.nan_to_num`. -/
def parametrize (L : ℚ → ℚ) (anchors bboxes : List Box) :
    List (FVal × FVal × FVal × FVal) :=
  if bboxes = [] then anchors.map (fun _ => zeroReg)
  else (anchors.zip bboxes).map (fun p =>
    let r := parametrizePair L p.1 p.2
    (nanToNum r.1, nanToNum r.2.1, nanToNum r.2.2.1, nanToNum r.2.2.2))

/-- Whether all four components of a regression row are finite. -/
def entryFinite (e : FVal × FVal × FVal × FVal) : Bool :=
  e.1.isFinite && e.2.1.isFinite && e.2.2.1.isFinite && e.2.2.2.isFinite

/-! ### Anchor sampler -/

/-- `positive_indices = indices[positives.reshape(-1)]`. -/
def positiveIndices (indices : List ℕ) (positives : List Bool) : List ℕ :=
  maskSelect indices positives

/-- `negative_indices = indices[negatives.reshape(-1)]`. -/
def negativeIndices (indices : List ℕ) (negatives : List Bool) : List ℕ :=
  maskSelect indices negatives

/-- `random_positives = np.random.permutation(positive_indices)[:N // 2]`,
with the permutation draw supplied as `permP`. -/
def randomPositives (sampleSize : ℕ) (indices : List ℕ) (positives : List Bool)
    (permP : List ℕ → List ℕ) : List ℕ :=
  (permP (positiveIndices indices positives)).take (sampleSize / 2)

/-- `random_negatives = np.random.permutation(negative_indices)[:N - len(random_positives)]`,
with the permutation draw supplied as `permN`. -/
def randomNegatives (sampleSize : ℕ) (indices : List ℕ)
    (positives negatives : List Bool)
    (permP permN : List ℕ → List ℕ) : List ℕ :=
  (permN (negativeIndices indices negatives)).take
    (sampleSize - (randomPositives sampleSize indices positives permP).length)

/-- `get_selected_indices_sample`: the concatenation of the sampled
positive and negative indices, together with the full positive-index
list. -/
def get_selected_indices_sample (sampleSize : ℕ) (indices : List ℕ)
    (positives negatives : List Bool)
    (permP permN : List ℕ → List ℕ) : List ℕ × List ℕ :=
  (randomPositives sampleSize indices positives permP ++
     randomNegatives sampleSize indices positives negatives permP permN,
   positiveIndices indices positives)

/-- Trivial numeric log model used to instantiate `L` in concrete
evaluations; no statement depends on the values `L` takes on positive
arguments. -/
def logModel0 : ℚ → ℚ := fun _ => 0

/-! ### Lemmas about `listMax` and `argmaxIdx` -/

theorem listMax_singleton (x : ℚ) : listMax [x] = x := rfl

theorem listMax_cons_cons (x y : ℚ) (ys : List ℚ) :
    listMax (x :: y :: ys) = max x (listMax (y :: ys)) := rfl

theorem argmaxIdx_cons_cons (x y : ℚ) (ys : List ℚ) :
    argmaxIdx (x :: y :: ys) =
      if x < listMax (y :: ys) then argmaxIdx (y :: ys) + 1 else 0 := rfl

theorem le_listMax {l : List ℚ} {x : ℚ} (hx : x ∈ l) : x ≤ listMax l := by
  induction l with
  | nil => cases hx
  | cons a t ih =>
    cases t with
    | nil =>
      rcases List.mem_singleton.mp hx with rfl
      exact le_of_eq (listMax_singleton x).symm
    | cons b ts =>
      rw [listMax_cons_cons]
      rcases List.mem_cons.mp hx with rfl | h
      · exact le_max_left _ _
      · exact le_trans (ih h) (le_max_right _ _)

theorem listMax_mem {l : List ℚ} (h : l ≠ []) : listMax l ∈ l := by
  induction l with
  | nil => exact absurd rfl h
  | cons a t ih =>
    cases t with
    | nil => rw [listMax_singleton]; exact List.mem_singleton_self a
    | cons b ts =>
      rw [listMax_cons_cons]
      rcases le_total (listMax (b :: ts)) a with hle | hle
      · rw [max_eq_left hle]; exact List.mem_cons_self a _
      · rw [max_eq_right hle]
        exact List.mem_cons_of_mem a (ih (List.cons_ne_nil b ts))

theorem argmaxIdx_lt {l : List ℚ} (h : l ≠ []) : argmaxIdx l < l.length := by
  induction l with
  | nil => exact absurd rfl h
  | cons a t ih =>
    cases t with
    | nil => exact Nat.zero_lt_one
    | cons b ts =>
      rw [argmaxIdx_cons_cons]
      by_cases hc : a < listMax (b :: ts)
      · rw [if_pos hc]
        exact Nat.succ_lt_succ (ih (List.cons_ne_nil b ts))
      · rw [if_neg hc]
        exact Nat.zero_lt_succ _

theorem getD_argmaxIdx {l : List ℚ} (h : l ≠ []) :
    l.getD (argmaxIdx l) 0 = listMax l := by
  induction l with
  | nil => exact absurd rfl h
  | cons a t ih =>
    cases t with
    | nil => rfl
    | cons b ts =>
      rw [argmaxIdx_cons_cons, listMax_cons_cons]
      by_cases hc : a < listMax (b :: ts)
      · rw [if_pos hc, List.getD_cons_succ, ih (List.cons_ne_nil b ts),
          max_eq_right (le_of_lt hc)]
      · rw [if_neg hc, List.getD_cons_zero, max_eq_left (not_lt.mp hc)]

theorem getD_lt_of_lt_argmaxIdx {l : List ℚ} {i : ℕ} (h : i < argmaxIdx l) :
    l.getD i 0 < listMax l := by
  induction l generalizing i with
  | nil => exact absurd h (by simp [argmaxIdx])
  | cons a t ih =>
    cases t with
    | nil => exact absurd h (by simp [argmaxIdx])
    | cons b ts =>
      rw [argmaxIdx_cons_cons] at h
      by_cases hc : a < listMax (b :: ts)
      · rw [if_pos hc] at h
        rw [listMax_cons_cons, max_eq_right (le_of_lt hc)]
        cases i with
        | zero => exact hc
        | succ i =>
          rw [List.getD_cons_succ]
          exact ih (Nat.lt_of_succ_lt_succ h)
      · rw [if_neg hc] at h
        exact absurd h (Nat.not_lt_zero i)

/-! ### Lemmas about `maskSelect` -/

theorem maskSelect_nil_left (mask : List Bool) : maskSelect [] mask = [] := rfl

theorem maskSelect_nil_right (idx : List ℕ) : maskSelect idx [] = [] := by
  cases idx <;> rfl

theorem maskSelect_cons_cons (a : ℕ) (t : List ℕ) (m : Bool) (ms : List Bool) :
    maskSelect (a :: t) (m :: ms) =
      if m then a :: maskSelect t ms else maskSelect t ms := by
  cases m <;> simp [maskSelect, List.filter_cons]

theorem maskSelect_sublist (idx : List ℕ) (mask : List Bool) :
    List.Sublist (maskSelect idx mask) idx := by
  induction idx generalizing mask with
  | nil => rw [maskSelect_nil_left]
  | cons a t ih =>
    cases mask with
    | nil => rw [maskSelect_nil_right]; exact List.nil_sublist _
    | cons m ms =>
      rw [maskSelect_cons_cons]
      cases m
      · simpa using List.Sublist.cons a (ih ms)
      · simpa using List.Sublist.cons₂ a (ih ms)

theorem mem_of_mem_maskSelect {idx : List ℕ} {mask : List Bool} {x : ℕ}
    (h : x ∈ maskSelect idx mask) : x ∈ idx :=
  (maskSelect_sublist idx mask).subset h

theorem maskSelect_nodup {idx : List ℕ} (mask : List Bool) (h : idx.Nodup) :
    (maskSelect idx mask).Nodup :=
  h.sublist (maskSelect_sublist idx mask)

theorem maskSelect_length {idx : List ℕ} {mask : List Bool}
    (h : idx.length = mask.length) :
    (maskSelect idx mask).length = mask.count true := by
  induction idx generalizing mask with
  | nil =>
    cases mask with
    | nil => rfl
    | cons m ms => exact absurd h (by simp)
  | cons a t ih =>
    cases mask with
    | nil => exact absurd h (by simp)
    | cons m ms =>
      have ht : t.length = ms.length := Nat.succ_injective h
      rw [maskSelect_cons_cons]
      cases m
      · simp [List.count_cons, ih ht]
      · simp [List.count_cons, ih ht]

theorem maskSelect_disjoint {idx : List ℕ} {p n : List Bool} (hnd : idx.Nodup)
    (hdisj : ∀ i, i < idx.length →
      ¬(p.getD i false = true ∧ n.getD i false = true)) :
    ∀ x, x ∈ maskSelect idx p → x ∈ maskSelect idx n → False := by
  induction idx generalizing p n with
  | nil => intro x hx; rw [maskSelect_nil_left] at hx; cases hx
  | cons a t ih =>
    intro x hxp hxn
    cases p with
    | nil => rw [maskSelect_nil_right] at hxp; cases hxp
    | cons pm ps =>
      cases n with
      | nil => rw [maskSelect_nil_right] at hxn; cases hxn
      | cons nm ns =>
        rw [maskSelect_cons_cons] at hxp hxn
        have hnd2 := List.nodup_cons.mp hnd
        have hdisj2 : ∀ i, i < t.length →
            ¬(ps.getD i false = true ∧ ns.getD i false = true) := by
          intro i hi
          have := hdisj (i + 1) (by simpa using Nat.succ_lt_succ hi)
          simpa using this
        cases pm
        · rw [if_neg (by simp)] at hxp
          cases nm
          · rw [if_neg (by simp)] at hxn
            exact ih hnd2.2 hdisj2 x hxp hxn
          · rw [if_pos rfl] at hxn
            rcases List.mem_cons.mp hxn with rfl | hxn2
            · exact hnd2.1 (mem_of_mem_maskSelect hxp)
            · exact ih hnd2.2 hdisj2 x hxp hxn2
        · rw [if_pos rfl] at hxp
          cases nm
          · rw [if_neg (by simp)] at hxn
            rcases List.mem_cons.mp hxp with rfl | hxp2
            · exact hnd2.1 (mem_of_mem_maskSelect hxn)
            · exact ih hnd2.2 hdisj2 x hxp2 hxn
          · exact hdisj 0 (by simp) ⟨rfl, rfl⟩

/-! ### Lemmas about list indexing and flattening -/

theorem getD_map_lt {α β : Type} (l : List α) (f : α → β) (k : ℕ) (d : β)
    (d0 : α) (h : k < l.length) :
    (l.map f).getD k d = f (l.getD k d0) := by
  rw [List.getD_eq_getElem _ _ (by simpa using h), List.getD_eq_getElem _ _ h,
    List.getElem_map]

theorem getD_map_range {α : Type} (n k : ℕ) (f : ℕ → α) (d : α) (h : k < n) :
    ((List.range n).map f).getD k d = f k := by
  rw [List.getD_eq_getElem _ _ (by simpa using h)]
  simp

theorem length_flatten_map_const {α β : Type} (l : List α) (f : α → List β)
    (c : ℕ) (h : ∀ a ∈ l, (f a).length = c) :
    ((l.map f).flatten).length = l.length * c := by
  induction l with
  | nil => simp
  | cons a t ih =>
    simp only [List.map_cons, List.flatten_cons, List.length_append,
      List.length_cons]
    rw [h a (List.mem_cons_self a t),
      ih (fun x hx => h x (List.mem_cons_of_mem a hx))]
    ring

theorem length_flatten_flatten_map {α β : Type} (l : List α)
    (f : α → List (List β)) (c : ℕ) (h : ∀ a ∈ l, ((f a).flatten).length = c) :
    (((l.map f).flatten).flatten).length = l.length * c := by
  induction l with
  | nil => simp
  | cons a t ih =>
    simp only [List.map_cons, List.flatten_cons, List.flatten_append,
      List.length_append, List.length_cons]
    rw [h a (List.mem_cons_self a t),
      ih (fun x hx => h x (List.mem_cons_of_mem a hx))]
    ring

theorem anchors_at_position_length (p : ℕ × ℕ) :
    (get_anchors_at_position p).length = anchor_number := by
  simp [get_anchors_at_position, anchor_number]

theorem image_anchors_flat_length :
    image_anchors_flat.length =
      NUMBER_ANCHORS_WIDE * NUMBER_ANCHORS_HEIGHT * anchor_number := by
  unfold image_anchors_flat get_image_anchors
  rw [length_flatten_flatten_map _ _ (NUMBER_ANCHORS_HEIGHT * anchor_number)
    (fun i _ => by
      rw [length_flatten_map_const _ _ anchor_number
        (fun j _ => anchors_at_position_length (i, j))]
      simp)]
  simp [Nat.mul_assoc]

/-! ### Lemmas about the matcher's projections -/

theorem gpna_pos_length (anchors bboxes : List Box) :
    (get_positive_negative_anchors anchors bboxes).2.1.length = anchors.length := by
  unfold get_positive_negative_anchors
  by_cases hb : bboxes = []
  · rw [if_pos hb]; simp
  · rw [if_neg hb]; simp

theorem gpna_neg_length (anchors bboxes : List Box) :
    (get_positive_negative_anchors anchors bboxes).2.2.length = anchors.length := by
  unfold get_positive_negative_anchors
  by_cases hb : bboxes = []
  · rw [if_pos hb]; simp
  · rw [if_neg hb]; simp

theorem pos_label_getD (anchors bboxes : List Box) (k : ℕ) (hb : bboxes ≠ [])
    (hk : k < anchors.length) :
    (get_positive_negative_anchors anchors bboxes).2.1.getD k false =
      decide (maxIouAt anchors bboxes k > POSITIVE_THRESHOLD) := by
  unfold get_positive_negative_anchors maxIouAt
  rw [if_neg hb]
  dsimp only
  rw [getD_map_lt _ _ _ _ 0 (by simpa using hk),
    getD_map_lt _ _ _ _ [] (by simpa using hk),
    getD_map_lt _ _ _ _ box0 hk]

theorem neg_label_getD (anchors bboxes : List Box) (k : ℕ) (hb : bboxes ≠ [])
    (hk : k < anchors.length) :
    (get_positive_negative_anchors anchors bboxes).2.2.getD k false =
      decide (maxIouAt anchors bboxes k < NEGATIVE_THRESHOLD) := by
  unfold get_positive_negative_anchors maxIouAt
  rw [if_neg hb]
  dsimp only
  rw [getD_map_lt _ _ _ _ 0 (by simpa using hk),
    getD_map_lt _ _ _ _ [] (by simpa using hk),
    getD_map_lt _ _ _ _ box0 hk]

theorem truth_getD (anchors bboxes : List Box) (k : ℕ) (hb : bboxes ≠ [])
    (hk : k < anchors.length) :
    (get_positive_negative_anchors anchors bboxes).1.getD k box0 =
      bboxes.getD (argmaxIdx (iouRow bboxes (anchors.getD k box0))) box0 := by
  unfold get_positive_negative_anchors
  rw [if_neg hb]
  dsimp only
  rw [getD_map_lt _ _ _ _ [] (by simpa using hk),
    getD_map_lt _ _ _ _ box0 hk]

theorem iouRow_getD (bboxes : List Box) (a : Box) (i : ℕ)
    (hi : i < bboxes.length) :
    (iouRow bboxes a).getD i 0 = IoU a (bboxes.getD i box0) := by
  unfold iouRow
  rw [getD_map_lt _ _ _ _ box0 hi]

/-! ### Lemmas about the parametrizer -/

theorem nanToNum_isFinite (v : FVal) : (nanToNum v).isFinite = true := by
  cases v <;> rfl

theorem fdiv_isFinite (p q : ℚ) (h : q ≠ 0) : (fdiv p q).isFinite = true := by
  unfold fdiv
  rw [if_neg h]
  rfl

/-! ### Claim theorems -/

/-- Claim C1, amended: `parametrize` pushes every regression entry
through `np.nan_to_num`, which replaces NaN by `0` and the infinities
by the largest-magnitude finite float32 values (not by `0`), so the
returned regression-target tensor contains no NaN and no Inf entries
for any input. -/
theorem parametrize_output_finite (L : ℚ → ℚ) (anchors bboxes : List Box) :
    (parametrize L anchors bboxes).all entryFinite = true ∧
    nanToNum FVal.nan = FVal.finite 0 ∧
    nanToNum FVal.posInf = FVal.finite FLOAT32_MAX ∧
    nanToNum FVal.negInf = FVal.finite (-FLOAT32_MAX) := by
  refine ⟨?_, rfl, rfl, rfl⟩
  unfold parametrize
  by_cases hb : bboxes = []
  · rw [if_pos hb]
    simp only [List.all_eq_true]
    intro e he
    rcases List.mem_map.mp he with ⟨a, -, rfl⟩
    rfl
  · rw [if_neg hb]
    simp only [List.all_eq_true]
    intro e he
    rcases List.mem_map.mp he with ⟨pr, -, rfl⟩
    simp [entryFinite, nanToNum_isFinite]

/-- Counterexample to claim C1 as stated: on the anchor
`(0, 0, 2, 1)` matched with the zero-width ground-truth box
`(0, 0, 0, 1)`, the raw `dw` component is `log 0 = -inf`, and
`np.nan_to_num` replaces it with the most negative finite float32
value, which is not `0`. -/
theorem parametrize_negInf_not_zero :
    parametrizePair logModel0 ⟨0, 0, 2, 1⟩ ⟨0, 0, 0, 1⟩ =
      (FVal.finite 0, FVal.finite 0, FVal.negInf, FVal.finite 0) ∧
    parametrize logModel0 [⟨0, 0, 2, 1⟩] [⟨0, 0, 0, 1⟩] =
      [(FVal.finite 0, FVal.finite 0, FVal.finite (-FLOAT32_MAX), FVal.finite 0)] ∧
    -FLOAT32_MAX ≠ (0 : ℚ) := by
  refine ⟨?_, ?_, ?_⟩
  · unfold parametrizePair fdiv flog logModel0
    norm_num
  · unfold parametrize
    rw [if_neg (by simp)]
    unfold parametrizePair fdiv flog nanToNum logModel0
    norm_num
  · norm_num [FLOAT32_MAX]

/-- Claim C3: with an empty ground-truth list, matching returns an
empty truth tensor, labels every anchor negative and none positive
(so none ignored), and `parametrize` returns the all-zero tensor of
the anchors' shape without evaluating any regression formula (the
result does not depend on the log model `L`). -/
theorem empty_gt_all_negative (L : ℚ → ℚ) (anchors : List Box) :
    (get_positive_negative_anchors anchors []).1 = [] ∧
    (get_positive_negative_anchors anchors []).2.1.all (fun b => !b) = true ∧
    (get_positive_negative_anchors anchors []).2.2.all (fun b => b) = true ∧
    (get_positive_negative_anchors anchors []).2.1.length = anchors.length ∧
    (get_positive_negative_anchors anchors []).2.2.length = anchors.length ∧
    parametrize L anchors (get_positive_negative_anchors anchors []).1 =
      anchors.map (fun _ => zeroReg) := by
  have hpos : decide ((0 : ℚ) > POSITIVE_THRESHOLD) = false :=
    decide_eq_false (by norm_num [POSITIVE_THRESHOLD])
  have hneg : decide ((0 : ℚ) < NEGATIVE_THRESHOLD) = true :=
    decide_eq_true (by norm_num [NEGATIVE_THRESHOLD])
  refine ⟨rfl, ?_, ?_, gpna_pos_length _ _, gpna_neg_length _ _, rfl⟩
  · unfold get_positive_negative_anchors
    rw [if_pos rfl]
    simp only [hpos, List.all_eq_true]
    intro b hbmem
    rcases List.mem_map.mp hbmem with ⟨a, -, rfl⟩
    rfl
  · unfold get_positive_negative_anchors
    rw [if_pos rfl]
    simp only [hneg, List.all_eq_true]
    intro b hbmem
    rcases List.mem_map.mp hbmem with ⟨a, -, rfl⟩
    rfl

/-- Claim C9: for every input, the positive and negative label of one
anchor are never both set: the positive threshold `0.5` exceeds the
negative threshold `0.3`, and with no ground-truth boxes the positive
labels are all false. -/
theorem labels_disjoint (anchors bboxes : List Box) (k : ℕ) :
    ((get_positive_negative_anchors anchors bboxes).2.1.getD k false &&
      (get_positive_negative_anchors anchors bboxes).2.2.getD k false) = false := by
  by_cases hb : bboxes = []
  · subst hb
    have hzero : decide ((0 : ℚ) > POSITIVE_THRESHOLD) = false :=
      decide_eq_false (by norm_num [POSITIVE_THRESHOLD])
    have hpos : (get_positive_negative_anchors anchors []).2.1.getD k false = false := by
      unfold get_positive_negative_anchors
      rw [if_pos rfl]
      dsimp only
      simp only [hzero]
      rcases Nat.lt_or_ge k anchors.length with hk | hk
      · rw [getD_map_lt _ _ _ _ box0 hk]
      · exact List.getD_eq_default _ _ (by simpa using hk)
    rw [hpos, Bool.false_and]
  · rcases Nat.lt_or_ge k anchors.length with hk | hk
    · rw [pos_label_getD _ _ _ hb hk, neg_label_getD _ _ _ hb hk]
      by_cases hm : maxIouAt anchors bboxes k > POSITIVE_THRESHOLD
      · have hnotneg : ¬(maxIouAt anchors bboxes k < NEGATIVE_THRESHOLD) := by
          unfold POSITIVE_THRESHOLD at hm
          unfold NEGATIVE_THRESHOLD
          intro hcon
          linarith
        rw [decide_eq_false hnotneg, Bool.and_false]
      · rw [decide_eq_false hm, Bool.false_and]
    · rw [List.getD_eq_default _ _ (by rw [gpna_pos_length]; exact hk),
        Bool.false_and]

/-- Claim C2: with a non-empty ground-truth list, the thresholds are
strict: an anchor whose max IoU is exactly `0.5` is not labeled
positive, and one whose max IoU is exactly `0.3` is not labeled
negative. -/
theorem strict_thresholds (anchors bboxes : List Box) (k : ℕ) (hb : bboxes ≠ []) :
    (maxIouAt anchors bboxes k = POSITIVE_THRESHOLD →
      (get_positive_negative_anchors anchors bboxes).2.1.getD k false = false) ∧
    (maxIouAt anchors bboxes k = NEGATIVE_THRESHOLD →
      (get_positive_negative_anchors anchors bboxes).2.2.getD k false = false) := by
  constructor
  · intro hm
    rcases Nat.lt_or_ge k anchors.length with hk | hk
    · rw [pos_label_getD _ _ _ hb hk, hm]
      exact decide_eq_false (lt_irrefl _)
    · exact List.getD_eq_default _ _ (by rw [gpna_pos_length]; exact hk)
  · intro hm
    rcases Nat.lt_or_ge k anchors.length with hk | hk
    · rw [neg_label_getD _ _ _ hb hk, hm]
      exact decide_eq_false (lt_irrefl _)
    · exact List.getD_eq_default _ _ (by rw [gpna_neg_length]; exact hk)

/-- Witness for C2: a concrete configuration in which anchor `0` has
max IoU exactly `1/2` and anchor `1` has max IoU exactly `3/10`;
neither gets the corresponding label. -/
theorem strict_thresholds_witness :
    maxIouAt [⟨0, 0, 2, 1⟩, ⟨0, 0, 10/3, 1⟩] [⟨0, 0, 1, 1⟩] 0 = POSITIVE_THRESHOLD ∧
    (get_positive_negative_anchors [⟨0, 0, 2, 1⟩, ⟨0, 0, 10/3, 1⟩]
      [⟨0, 0, 1, 1⟩]).2.1.getD 0 false = false ∧
    maxIouAt [⟨0, 0, 2, 1⟩, ⟨0, 0, 10/3, 1⟩] [⟨0, 0, 1, 1⟩] 1 = NEGATIVE_THRESHOLD ∧
    (get_positive_negative_anchors [⟨0, 0, 2, 1⟩, ⟨0, 0, 10/3, 1⟩]
      [⟨0, 0, 1, 1⟩]).2.2.getD 1 false = false := by
  have hmax0 : maxIouAt [⟨0, 0, 2, 1⟩, ⟨0, 0, 10/3, 1⟩] [⟨0, 0, 1, 1⟩] 0 =
      POSITIVE_THRESHOLD := by
    unfold maxIouAt iouRow IoU
    norm_num [listMax_singleton, POSITIVE_THRESHOLD, min_def, max_def]
  have hmax1 : maxIouAt [⟨0, 0, 2, 1⟩, ⟨0, 0, 10/3, 1⟩] [⟨0, 0, 1, 1⟩] 1 =
      NEGATIVE_THRESHOLD := by
    unfold maxIouAt iouRow IoU
    norm_num [listMax_singleton, NEGATIVE_THRESHOLD, min_def, max_def]
  refine ⟨hmax0, ?_, hmax1, ?_⟩
  · exact (strict_thresholds _ _ 0 (by simp)).1 hmax0
  · exact (strict_thresholds _ _ 1 (by simp)).2 hmax1

/-- Claim C10: every anchor of the grid has positive width and positive
height, so the divisions by anchor width and height in the
parametrization formulas never divide by zero. -/
theorem anchors_nondegenerate (a : Box) (ha : a ∈ image_anchors_flat) :
    0 < a.xmax - a.xmin ∧ 0 < a.ymax - a.ymin ∧
    ∀ q : ℚ, (fdiv q (a.xmax - a.xmin)).isFinite = true ∧
      (fdiv q (a.ymax - a.ymin)).isFinite = true := by
  have hdims : ∃ d ∈ get_anchor_dimensions,
      a.xmax - a.xmin = d.1 * RECEPTIVE_FIELD ∧
      a.ymax - a.ymin = d.2 * RECEPTIVE_FIELD := by
    unfold image_anchors_flat get_image_anchors at ha
    rw [List.mem_flatten] at ha
    obtain ⟨l, hl, hal⟩ := ha
    rw [List.mem_flatten] at hl
    obtain ⟨m, hm, hlm⟩ := hl
    rw [List.mem_map] at hm
    obtain ⟨i, hi, rfl⟩ := hm
    rw [List.mem_map] at hlm
    obtain ⟨j, hj, rfl⟩ := hlm
    unfold get_anchors_at_position at hal
    rw [List.mem_map] at hal
    obtain ⟨d, hd, rfl⟩ := hal
    exact ⟨d, hd, by dsimp only; ring, by dsimp only; ring⟩
  obtain ⟨d, hd, hw, hh⟩ := hdims
  have hdpos : 0 < d.1 ∧ 0 < d.2 := by
    have hWR : ∀ w ∈ ANCHORS_WIDTH_RATIOS, 0 < w := by
      intro w hw
      rcases (by simpa [ANCHORS_WIDTH_RATIOS] using hw :
        w = 3/10 ∨ w = 1/2 ∨ w = 1) with rfl | rfl | rfl <;> norm_num
    have hHR : ∀ w ∈ ANCHORS_HEIGHT_RATIOS, 0 < w := by
      intro w hw
      rcases (by simpa [ANCHORS_HEIGHT_RATIOS] using hw :
        w = 3/10 ∨ w = 1/2 ∨ w = 1) with rfl | rfl | rfl <;> norm_num
    rcases List.mem_flatMap.mp hd with ⟨w, hwmem, hmem⟩
    rcases List.mem_map.mp hmem with ⟨ht, hht, rfl⟩
    exact ⟨hWR w hwmem, hHR ht hht⟩
  have hwpos : 0 < a.xmax - a.xmin := by
    rw [hw]
    exact mul_pos hdpos.1 (by norm_num [RECEPTIVE_FIELD])
  have hhpos : 0 < a.ymax - a.ymin := by
    rw [hh]
    exact mul_pos hdpos.2 (by norm_num [RECEPTIVE_FIELD])
  exact ⟨hwpos, hhpos, fun q =>
    ⟨fdiv_isFinite _ _ hwpos.ne', fdiv_isFinite _ _ hhpos.ne'⟩⟩

/-- Witness for C10: the first anchor of the grid has positive width,
and the `dx` division at that anchor is finite. -/
theorem anchors_nondegenerate_witness :
    0 < (239/5 : ℚ) - (-79/5) ∧
    (fdiv 1 ((239/5 : ℚ) - (-79/5))).isFinite = true := by
  have hfirst : (⟨-79/5, -79/5, 239/5, 239/5⟩ : Box) ∈
      get_anchors_at_position (0, 0) := by
    unfold get_anchors_at_position
    refine List.mem_map.mpr ⟨(3/10, 3/10), ?_, ?_⟩
    · simp [get_anchor_dimensions, ANCHORS_WIDTH_RATIOS, ANCHORS_HEIGHT_RATIOS]
    · norm_num [OUTPUT_CELL_SIZE, INPUT_SIZE, OUTPUT_SIZE, RECEPTIVE_FIELD,
        Box.mk.injEq]
  have hmem : (⟨-79/5, -79/5, 239/5, 239/5⟩ : Box) ∈ image_anchors_flat := by
    unfold image_anchors_flat get_image_anchors
    rw [List.mem_flatten]
    refine ⟨get_anchors_at_position (0, 0), ?_, hfirst⟩
    rw [List.mem_flatten]
    refine ⟨(List.range NUMBER_ANCHORS_HEIGHT).map
      (fun j => get_anchors_at_position (0, j)), ?_, ?_⟩
    · exact List.mem_map.mpr ⟨0, List.mem_range.mpr (by decide), rfl⟩
    · exact List.mem_map.mpr ⟨0, List.mem_range.mpr (by decide), rfl⟩
  obtain ⟨h1, h2, h3⟩ := anchors_nondegenerate ⟨-79/5, -79/5, 239/5, 239/5⟩ hmem
  exact ⟨h1, (h3 1).1⟩

/-- Claim C6: the grid holds exactly `W*H*num_shapes` anchors; the
shape list is the cross product of the ratio lists in canonical order
(outer loop over width ratios, inner over height ratios); and the
anchor of cell `(x, y)` and shape `s` has width `wr * receptive_field`,
height `hr * receptive_field`, and is centered at
`(cell_size * (x + 0.5), cell_size * (y + 0.5))` with the single
`cell_size = input_width / W` used on both axes. -/
theorem anchor_grid_geometry (x y s : ℕ) (hx : x < NUMBER_ANCHORS_WIDE)
    (hy : y < NUMBER_ANCHORS_HEIGHT) (hs : s < anchor_number) :
    image_anchors_flat.length =
      NUMBER_ANCHORS_WIDE * NUMBER_ANCHORS_HEIGHT * anchor_number ∧
    get_anchor_dimensions =
      [(3/10, 3/10), (3/10, 1/2), (3/10, 1), (1/2, 3/10), (1/2, 1/2),
        (1/2, 1), (1, 3/10), (1, 1/2), (1, 1)] ∧
    OUTPUT_CELL_SIZE = INPUT_SIZE.1 / (OUTPUT_SIZE.1 : ℚ) ∧
    ((((get_image_anchors.getD x []).getD y []).getD s box0).xmax -
        (((get_image_anchors.getD x []).getD y []).getD s box0).xmin =
      (get_anchor_dimensions.getD s (0, 0)).1 * RECEPTIVE_FIELD) ∧
    ((((get_image_anchors.getD x []).getD y []).getD s box0).ymax -
        (((get_image_anchors.getD x []).getD y []).getD s box0).ymin =
      (get_anchor_dimensions.getD s (0, 0)).2 * RECEPTIVE_FIELD) ∧
    ((((get_image_anchors.getD x []).getD y []).getD s box0).xmin +
        (((get_image_anchors.getD x []).getD y []).getD s box0).xmax =
      2 * (OUTPUT_CELL_SIZE * ((x : ℚ) + 1/2))) ∧
    ((((get_image_anchors.getD x []).getD y []).getD s box0).ymin +
        (((get_image_anchors.getD x []).getD y []).getD s box0).ymax =
      2 * (OUTPUT_CELL_SIZE * ((y : ℚ) + 1/2))) := by
  have e1 : get_image_anchors.getD x [] =
      (List.range NUMBER_ANCHORS_HEIGHT).map (fun j => get_anchors_at_position (x, j)) := by
    unfold get_image_anchors
    exact getD_map_range _ _ _ _ hx
  have e2 : (get_image_anchors.getD x []).getD y [] = get_anchors_at_position (x, y) := by
    rw [e1]
    exact getD_map_range _ _ _ _ hy
  have e3 : ((get_image_anchors.getD x []).getD y []).getD s box0 =
      (fun d : ℚ × ℚ =>
        let center_x := OUTPUT_CELL_SIZE * (((x, y).1 : ℚ) + 1/2)
        let center_y := OUTPUT_CELL_SIZE * (((x, y).2 : ℚ) + 1/2)
        let width := d.1 * RECEPTIVE_FIELD
        let height := d.2 * RECEPTIVE_FIELD
        let top_x := center_x - width / 2
        let top_y := center_y - height / 2
        (⟨top_x, top_y, top_x + width, top_y + height⟩ : Box))
        (get_anchor_dimensions.getD s (0, 0)) := by
    rw [e2]
    unfold get_anchors_at_position
    exact getD_map_lt _ _ _ _ (0, 0) hs
  refine ⟨image_anchors_flat_length, ?_, rfl, ?_, ?_, ?_, ?_⟩
  · simp [get_anchor_dimensions, ANCHORS_WIDTH_RATIOS, ANCHORS_HEIGHT_RATIOS]
  all_goals rw [e3]; dsimp only; ring

/-- Witness for C6: at cell `(0, 0)` and shape `0`, the grid size
equation evaluates to `11250` anchors. -/
theorem anchor_grid_geometry_witness : image_anchors_flat.length = 11250 := by
  have h := (anchor_grid_geometry 0 0 0 (by decide) (by decide) (by decide)).1
  rw [h]
  decide

/-- Claim C7: for a non-empty ground-truth list and an in-bounds
anchor `k`, the matcher's `max_iou` is the maximum of the anchor's IoU
over all ground-truth boxes (attained and an upper bound), and the
matched box is the ground-truth box at the first index achieving that
maximum. -/
theorem matcher_max_first_argmax (anchors bboxes : List Box) (k : ℕ)
    (hb : bboxes ≠ []) (hk : k < anchors.length) :
    (∃ b ∈ bboxes, IoU (anchors.getD k box0) b = maxIouAt anchors bboxes k) ∧
    (∀ b ∈ bboxes, IoU (anchors.getD k box0) b ≤ maxIouAt anchors bboxes k) ∧
    (∃ j, j < bboxes.length ∧
      (get_positive_negative_anchors anchors bboxes).1.getD k box0 =
        bboxes.getD j box0 ∧
      IoU (anchors.getD k box0) (bboxes.getD j box0) = maxIouAt anchors bboxes k ∧
      ∀ i, i < j →
        IoU (anchors.getD k box0) (bboxes.getD i box0) < maxIouAt anchors bboxes k) := by
  have hmax : maxIouAt anchors bboxes k =
      listMax (iouRow bboxes (anchors.getD k box0)) := rfl
  have hrow : iouRow bboxes (anchors.getD k box0) ≠ [] := by
    unfold iouRow
    simpa using hb
  have hrowlen : (iouRow bboxes (anchors.getD k box0)).length = bboxes.length := by
    unfold iouRow
    exact List.length_map _ _
  refine ⟨?_, ?_, ?_⟩
  · have hmem := listMax_mem hrow
    unfold iouRow at hmem
    rcases List.mem_map.mp hmem with ⟨b, hbmem, hbeq⟩
    exact ⟨b, hbmem, by rw [hbeq, hmax]; rfl⟩
  · intro b hbmem
    rw [hmax]
    exact le_listMax (List.mem_map_of_mem _ hbmem)
  · have hlt : argmaxIdx (iouRow bboxes (anchors.getD k box0)) < bboxes.length := by
      rw [← hrowlen]
      exact argmaxIdx_lt hrow
    refine ⟨argmaxIdx (iouRow bboxes (anchors.getD k box0)), hlt,
      truth_getD anchors bboxes k hb hk, ?_, ?_⟩
    · rw [← iouRow_getD bboxes _ _ hlt, hmax]
      exact getD_argmaxIdx hrow
    · intro i hij
      have hilt : i < bboxes.length := lt_trans hij hlt
      rw [← iouRow_getD bboxes _ _ hilt, hmax]
      exact getD_lt_of_lt_argmaxIdx hij

/-- Witness for C7: one anchor against two identical ground-truth
boxes; the matched box is the first of the two, its IoU with the
anchor is the maximum `1`. -/
theorem matcher_max_first_argmax_witness :
    (get_positive_negative_anchors [(⟨0, 0, 1, 1⟩ : Box)]
      [⟨0, 0, 1, 1⟩, ⟨0, 0, 1, 1⟩]).1.getD 0 box0 = ⟨0, 0, 1, 1⟩ ∧
    maxIouAt [(⟨0, 0, 1, 1⟩ : Box)] [⟨0, 0, 1, 1⟩, ⟨0, 0, 1, 1⟩] 0 = 1 := by
  obtain ⟨-, -, j, hj, htr, -, -⟩ :=
    matcher_max_first_argmax [⟨0, 0, 1, 1⟩] [⟨0, 0, 1, 1⟩, ⟨0, 0, 1, 1⟩] 0
      (by simp) (by simp)
  constructor
  · rw [htr]
    have hj2 : j < 2 := by simpa using hj
    match j, hj2 with
    | 0, _ => rfl
    | 1, _ => rfl
  · unfold maxIouAt iouRow IoU
    norm_num [listMax, min_def, max_def]

/-- Claim C5: the sampler takes up to `sample_size / 2` positives from
the permuted positive indices, then negatives up to the remaining
budget `sample_size - (positives taken)`; the sample is the
concatenation positives-then-negatives, its size never exceeds
`sample_size`, and equals `sample_size` whenever enough negatives
exist. -/
theorem sampler_budget (sampleSize : ℕ) (indices : List ℕ) (p n : List Bool)
    (permP permN : List ℕ → List ℕ)
    (hpermP : (permP (positiveIndices indices p)).Perm (positiveIndices indices p))
    (hpermN : (permN (negativeIndices indices n)).Perm (negativeIndices indices n)) :
    (get_selected_indices_sample sampleSize indices p n permP permN).1 =
      randomPositives sampleSize indices p permP ++
        randomNegatives sampleSize indices p n permP permN ∧
    (randomPositives sampleSize indices p permP).length =
      min (sampleSize / 2) (positiveIndices indices p).length ∧
    (get_selected_indices_sample sampleSize indices p n permP permN).1.length =
      min (sampleSize / 2) (positiveIndices indices p).length +
        min (sampleSize - min (sampleSize / 2) (positiveIndices indices p).length)
          (negativeIndices indices n).length ∧
    (get_selected_indices_sample sampleSize indices p n permP permN).1.length ≤
      sampleSize ∧
    (sampleSize - min (sampleSize / 2) (positiveIndices indices p).length ≤
        (negativeIndices indices n).length →
      (get_selected_indices_sample sampleSize indices p n permP permN).1.length =
        sampleSize) := by
  have hrp : (randomPositives sampleSize indices p permP).length =
      min (sampleSize / 2) (positiveIndices indices p).length := by
    unfold randomPositives
    rw [List.length_take, hpermP.length_eq]
  have hrn : (randomNegatives sampleSize indices p n permP permN).length =
      min (sampleSize - min (sampleSize / 2) (positiveIndices indices p).length)
        (negativeIndices indices n).length := by
    unfold randomNegatives
    rw [List.length_take, hpermN.length_eq, hrp]
  have hlen : (get_selected_indices_sample sampleSize indices p n permP permN).1.length =
      min (sampleSize / 2) (positiveIndices indices p).length +
        min (sampleSize - min (sampleSize / 2) (positiveIndices indices p).length)
          (negativeIndices indices n).length := by
    unfold get_selected_indices_sample
    rw [List.length_append, hrp, hrn]
  have h1 : min (sampleSize / 2) (positiveIndices indices p).length ≤ sampleSize / 2 :=
    Nat.min_le_left _ _
  have h3 : sampleSize / 2 ≤ sampleSize := Nat.div_le_self _ _
  refine ⟨rfl, hrp, hlen, ?_, ?_⟩
  · rw [hlen]
    have h2 : min (sampleSize - min (sampleSize / 2) (positiveIndices indices p).length)
        (negativeIndices indices n).length ≤
          sampleSize - min (sampleSize / 2) (positiveIndices indices p).length :=
      Nat.min_le_left _ _
    omega
  · intro hN
    rw [hlen, Nat.min_eq_left hN]
    omega

/-- Witness for C5: four anchors, one positive and three negatives,
with budget `4`: one positive is taken, three negatives backfill, and
the sample size equals the budget. -/
theorem sampler_budget_witness :
    (get_selected_indices_sample 4 (List.range 4) [true, false, false, false]
      [false, true, true, true] id id).1.length = 4 := by
  have h := sampler_budget 4 (List.range 4) [true, false, false, false]
    [false, true, true, true] id id (List.Perm.refl _) (List.Perm.refl _)
  exact h.2.2.2.2 (by decide)

/-- Claim C8: every index of the returned sample comes from the
positive-index list or the negative-index list; an anchor in neither
mask is never sampled. -/
theorem sample_only_labeled (sampleSize : ℕ) (indices : List ℕ) (p n : List Bool)
    (permP permN : List ℕ → List ℕ)
    (hpermP : (permP (positiveIndices indices p)).Perm (positiveIndices indices p))
    (hpermN : (permN (negativeIndices indices n)).Perm (negativeIndices indices n)) :
    ∀ x ∈ (get_selected_indices_sample sampleSize indices p n permP permN).1,
      x ∈ positiveIndices indices p ∨ x ∈ negativeIndices indices n := by
  intro x hx
  unfold get_selected_indices_sample randomPositives randomNegatives at hx
  rcases List.mem_append.mp hx with h | h
  · exact Or.inl (hpermP.mem_iff.mp (List.take_subset _ _ h))
  · exact Or.inr (hpermN.mem_iff.mp (List.take_subset _ _ h))

/-- Witness for C8: with two anchors, one positive and one negative,
index `0` of the sample is in one of the two index lists. -/
theorem sample_only_labeled_witness :
    0 ∈ positiveIndices (List.range 2) [true, false] ∨
      0 ∈ negativeIndices (List.range 2) [false, true] :=
  sample_only_labeled 2 (List.range 2) [true, false] [false, true] id id
    (List.Perm.refl _) (List.Perm.refl _) 0 (by decide)

/-- Claim C4: with `sample_size = 256`, at least 128 positive-labeled
and at least 128 negative-labeled anchors (disjoint labelings), the
sample is 128 positive indices followed by 128 negative indices, has
no duplicate, every index is below the flat grid size, and the full
positive-index list returned separately has exactly as many entries as
there are positive-labeled anchors. -/
theorem sampler_balanced (total : ℕ) (p n : List Bool)
    (permP permN : List ℕ → List ℕ)
    (hp : p.length = total) (_hn : n.length = total)
    (hdisj : ∀ i, i < total → ¬(p.getD i false = true ∧ n.getD i false = true))
    (hpermP : (permP (positiveIndices (List.range total) p)).Perm
      (positiveIndices (List.range total) p))
    (hpermN : (permN (negativeIndices (List.range total) n)).Perm
      (negativeIndices (List.range total) n))
    (hposCount : 128 ≤ (positiveIndices (List.range total) p).length)
    (hnegCount : 128 ≤ (negativeIndices (List.range total) n).length) :
    (get_selected_indices_sample ANCHOR_SAMPLING_SIZE (List.range total) p n
        permP permN).1 =
      randomPositives ANCHOR_SAMPLING_SIZE (List.range total) p permP ++
        randomNegatives ANCHOR_SAMPLING_SIZE (List.range total) p n permP permN ∧
    (randomPositives ANCHOR_SAMPLING_SIZE (List.range total) p permP).length = 128 ∧
    (randomNegatives ANCHOR_SAMPLING_SIZE (List.range total) p n permP permN).length =
      128 ∧
    (∀ x ∈ randomPositives ANCHOR_SAMPLING_SIZE (List.range total) p permP,
      x ∈ positiveIndices (List.range total) p) ∧
    (∀ x ∈ randomNegatives ANCHOR_SAMPLING_SIZE (List.range total) p n permP permN,
      x ∈ negativeIndices (List.range total) n) ∧
    (get_selected_indices_sample ANCHOR_SAMPLING_SIZE (List.range total) p n
      permP permN).1.Nodup ∧
    (∀ x ∈ (get_selected_indices_sample ANCHOR_SAMPLING_SIZE (List.range total) p n
      permP permN).1, x < total) ∧
    (get_selected_indices_sample ANCHOR_SAMPLING_SIZE (List.range total) p n
      permP permN).2.length = p.count true := by
  have hhalf : ANCHOR_SAMPLING_SIZE / 2 = 128 := by decide
  have hrp : (randomPositives ANCHOR_SAMPLING_SIZE (List.range total) p permP).length =
      128 := by
    unfold randomPositives
    rw [List.length_take, hpermP.length_eq, hhalf]
    exact Nat.min_eq_left hposCount
  have hrn : (randomNegatives ANCHOR_SAMPLING_SIZE (List.range total) p n
      permP permN).length = 128 := by
    unfold randomNegatives
    rw [List.length_take, hpermN.length_eq, hrp]
    have hsub : ANCHOR_SAMPLING_SIZE - 128 = 128 := by decide
    rw [hsub]
    exact Nat.min_eq_left hnegCount
  have hmemP : ∀ x ∈ randomPositives ANCHOR_SAMPLING_SIZE (List.range total) p permP,
      x ∈ positiveIndices (List.range total) p := by
    intro x hx
    unfold randomPositives at hx
    exact hpermP.mem_iff.mp (List.take_subset _ _ hx)
  have hmemN : ∀ x ∈ randomNegatives ANCHOR_SAMPLING_SIZE (List.range total) p n
      permP permN, x ∈ negativeIndices (List.range total) n := by
    intro x hx
    unfold randomNegatives at hx
    exact hpermN.mem_iff.mp (List.take_subset _ _ hx)
  have hdisj2 : ∀ i, i < (List.range total).length →
      ¬(p.getD i false = true ∧ n.getD i false = true) := by
    simpa using hdisj
  have hndrp : (randomPositives ANCHOR_SAMPLING_SIZE (List.range total) p permP).Nodup := by
    unfold randomPositives
    exact ((hpermP.nodup_iff).mpr
      (maskSelect_nodup p (List.nodup_range total))).sublist (List.take_sublist _ _)
  have hndrn : (randomNegatives ANCHOR_SAMPLING_SIZE (List.range total) p n
      permP permN).Nodup := by
    unfold randomNegatives
    exact ((hpermN.nodup_iff).mpr
      (maskSelect_nodup n (List.nodup_range total))).sublist (List.take_sublist _ _)
  have hnd : (get_selected_indices_sample ANCHOR_SAMPLING_SIZE (List.range total) p n
      permP permN).1.Nodup := by
    unfold get_selected_indices_sample
    refine List.Nodup.append hndrp hndrn ?_
    intro x hxp hxn
    exact maskSelect_disjoint (List.nodup_range total) hdisj2 x
      (hmemP x hxp) (hmemN x hxn)
  refine ⟨rfl, hrp, hrn, hmemP, hmemN, hnd, ?_, ?_⟩
  · intro x hx
    unfold get_selected_indices_sample at hx
    rcases List.mem_append.mp hx with h | h
    · exact List.mem_range.mp (mem_of_mem_maskSelect (hmemP x h))
    · exact List.mem_range.mp (mem_of_mem_maskSelect (hmemN x h))
  · unfold get_selected_indices_sample positiveIndices
    exact maskSelect_length (by simp [hp])

set_option maxRecDepth 40000 in
/-- Witness for C4: 256 anchors, the first 128 positive and the last
128 negative, identity permutation draws: the sample splits 128/128
and has no duplicates. -/
theorem sampler_balanced_witness :
    (randomPositives ANCHOR_SAMPLING_SIZE (List.range 256)
      (List.replicate 128 true ++ List.replicate 128 false) id).length = 128 ∧
    (randomNegatives ANCHOR_SAMPLING_SIZE (List.range 256)
      (List.replicate 128 true ++ List.replicate 128 false)
      (List.replicate 128 false ++ List.replicate 128 true) id id).length = 128 ∧
    (get_selected_indices_sample ANCHOR_SAMPLING_SIZE (List.range 256)
      (List.replicate 128 true ++ List.replicate 128 false)
      (List.replicate 128 false ++ List.replicate 128 true) id id).1.Nodup := by
  have h := sampler_balanced 256
    (List.replicate 128 true ++ List.replicate 128 false)
    (List.replicate 128 false ++ List.replicate 128 true) id id
    (by decide) (by decide) (by decide)
    (List.Perm.refl _) (List.Perm.refl _)
    (by decide) (by decide)
  exact ⟨h.2.1, h.2.2.1, h.2.2.2.2.2.1⟩

end Dataset
